import Mathlib

/-!
Verification of the `ymproject` matching-and-enrichment pipeline (`src/main.py`).

This file gives a shallow embedding, in Lean, of the parts of `main.py` that the
design claims talk about, and proves (or refutes) each claim against that embedding.

Modelling conventions:
* Python `float` values (match scores, similarity ratios, thresholds) are modelled as
  exact rationals `ℚ`.  The literal `0.8` of the source is `mkRat 4 5`; Python's
  `round(x, 4)` is modelled as rounding to a denominator of `10 ^ 4` (half-up; the
  banker's-rounding tie behaviour of binary floats is not observable at this level).
* Network I/O is modelled through oracles: a search call consumes the next element of a
  response oracle `Nat → SearchResp`, the token endpoint is an oracle
  `Nat → Option String`, and the organization detail endpoint is an oracle
  `String → Option OrgInfo`.
* Excel files are modelled as `XFile α`: missing, corrupt (unreadable), locked
  (readable, but writing raises `PermissionError`), or a readable workbook carrying its
  list of rows (the header row of the schema is implicit in the row type `α`).
* `difflib.SequenceMatcher.ratio()` (used by `calculate_similarity`) is embedded in
  full, including the `autojunk` popularity rule and the greedy longest-match search;
  `while` loops are written as structural recursions whose fuel arguments are chosen so
  that the fuel never runs out before the loop guard fails.
-/

/-- Python `round(q, 4)`: round to four decimal places, computed on the exact fraction
as `⌊q * 10^4 + 1/2⌋ / 10^4` (half-up on ties; the banker's-rounding tie behaviour of
binary floats is not observable at this level). -/
def round4 (q : ℚ) : ℚ := mkRat ((2 * (q.num * 10000) + q.den).fdiv (2 * q.den)) 10000

/-- One parsed search candidate, as produced by `parse_search_response`. -/
structure Candidate where
  name : String
  chineseName : String
  ym_id : String
  score : ℚ
  orgId : String
  orgName : String
  orgWebsite : String
  orgDescription : String
deriving DecidableEq, Repr

/-- The nested `org` object of a raw search-result item. -/
structure OrgSub where
  id : String
  name : String
  website : String
  description : String
deriving DecidableEq, Repr

/-- One raw item of `data.result` in a search response.  `score = none` models a missing
or non-numeric score (`float(...)` fails and the code falls back to `0.0`); `org = none`
models a missing or empty nested `org` object, in which case the flattened top-level
fields `orgId`/`orgName`/`orgWebsite`/`orgDescription` are used instead. -/
structure RawItem where
  name : String
  chineseName : String
  id : String
  score : Option ℚ
  org : Option OrgSub
  orgId : String
  orgName : String
  orgWebsite : String
  orgDescription : String
deriving DecidableEq, Repr

/-- The per-item body of `parse_search_response`. -/
def parse_item (item : RawItem) : Candidate :=
  let score := round4 (item.score.getD 0)
  let org_info := item.org.getD ⟨item.orgId, item.orgName, item.orgWebsite, item.orgDescription⟩
  { name := item.name
    chineseName := item.chineseName
    ym_id := item.id
    score := score
    orgId := org_info.id
    orgName := org_info.name
    orgWebsite := org_info.website
    orgDescription := org_info.description }

/-- `parse_search_response`: parse every item of `data.result`. -/
def parse_search_response (items : List RawItem) : List Candidate := items.map parse_item

/-- Insert a candidate into a descending-sorted list, after all candidates with a
greater-or-equal score (so that the whole sort is stable, like Python `sorted`). -/
def insertByScoreDesc (c : Candidate) : List Candidate → List Candidate
  | [] => [c]
  | x :: xs => if x.score > c.score then x :: insertByScoreDesc c xs else c :: x :: xs

/-- `sorted(matches, key=lambda x: x["score"], reverse=True)`: stable descending sort by
score.  (A stable sort is uniquely determined by the comparison key, so this insertion
sort computes exactly the output of Python's stable `sorted`.) -/
def sortByScoreDesc (l : List Candidate) : List Candidate := l.foldr insertByScoreDesc []

/-- The default `top_k` of `search_ym_top_matches`. -/
def default_top_k : Nat := 3

/-- The default `threshold` of `search_ym_top_matches`, the source literal `0.8`. -/
def default_threshold : ℚ := mkRat 4 5

/-- The status-200 branch of `search_ym_top_matches`: parse, sort descending by score,
then return a single candidate when the top score reaches the threshold, otherwise the
top `top_k` candidates. -/
def searchSuccess (items : List RawItem) (top_k : Nat) (threshold : ℚ) : List Candidate :=
  let ms := sortByScoreDesc (parse_search_response items)
  match ms with
  | [] => []
  | m :: rest => if threshold ≤ m.score then [m] else (m :: rest).take top_k

/-- Outcome of one HTTP request of the search endpoint. -/
inductive SearchResp where
  | ok (items : List RawItem)
  | unauthorized
  | otherError (status : Nat)
deriving DecidableEq

/-- Observable outcome of one whole `search_ym_top_matches` call: the returned
candidates, the number of search requests issued, the number of token-refresh calls
made, and the final content of the shared token cell `token_ref["value"]`. -/
structure SearchOutcome where
  result : List Candidate
  attempts : Nat
  refreshes : Nat
  token : String
deriving DecidableEq

/-- The `for attempt in range(4)` loop of `search_ym_top_matches`.  `resp n` is the
response to the `n`-th search request of this call and `refresh n` the result of the
`n`-th `get_access_token()` call; `fuel` is the number of loop iterations left. -/
def searchLoop (resp : Nat → SearchResp) (refresh : Nat → Option String)
    (top_k : Nat) (threshold : ℚ) :
    Nat → String → Nat → Nat → SearchOutcome
  | 0, tok, reqs, refs => ⟨[], reqs, refs, tok⟩
  | fuel + 1, tok, reqs, refs =>
    match resp reqs with
    | .ok items => ⟨searchSuccess items top_k threshold, reqs + 1, refs, tok⟩
    | .unauthorized =>
      match refresh refs with
      | some newTok => searchLoop resp refresh top_k threshold fuel newTok (reqs + 1) (refs + 1)
      | none => ⟨[], reqs + 1, refs + 1, tok⟩
    | .otherError _ => ⟨[], reqs + 1, refs, tok⟩

/-- `search_ym_top_matches`: at most 4 total attempts, token refresh on 401, empty
result on any other failure. -/
def search_ym_top_matches (resp : Nat → SearchResp) (refresh : Nat → Option String)
    (token : String) (top_k : Nat) (threshold : ℚ) : SearchOutcome :=
  searchLoop resp refresh top_k threshold 4 token 0 0

/-- The running best-match state of the per-record selection loop of
`match_bgm_games_and_save` (`best_match`, `best_score`, `match_source`). -/
structure BestSel where
  best : Option Candidate
  best_score : ℚ
  source : String
deriving DecidableEq

/-- The best-match selection of `match_bgm_games_and_save`: try the Japanese name, then
the Chinese name, keeping the candidate with the strictly greater top score
(`best_score` starts at `-1.0`).  `search` abstracts one `search_ym_top_matches` call. -/
def selectBest (jp_name cn_name : String) (search : String → List Candidate) : BestSel :=
  let st0 : BestSel := ⟨none, -1, ""⟩
  let st1 :=
    if jp_name ≠ "" then
      match search jp_name with
      | c :: _ => if c.score > st0.best_score then ⟨some c, c.score, "日文名"⟩ else st0
      | [] => st0
    else st0
  if cn_name ≠ "" then
    match search cn_name with
    | c :: _ => if c.score > st1.best_score then ⟨some c, c.score, "中文名"⟩ else st1
    | [] => st1
  else st1

/-- One organization detail record, as returned by `get_organization_details` and as
persisted in the organization store (columns `org_id`, `name`, `chineseName`,
`website`, `description`, `birthday`). -/
structure OrgInfo where
  id : String
  name : String
  chineseName : String
  website : String
  description : String
  birthday : String
deriving DecidableEq, Repr

/-- One entry of the in-memory `processed_orgs` cache: the best-known detail record
(`none` models the empty dict `{}`) plus the retry counter. -/
structure OrgEntry where
  info : Option OrgInfo
  retry_count : Nat
deriving DecidableEq, Repr

/-- The in-memory `processed_orgs` mapping, as an association list. -/
abbrev OrgCache := List (String × OrgEntry)

/-- Dictionary lookup in the cache. -/
def cacheFind (cache : OrgCache) (k : String) : Option OrgEntry :=
  (cache.find? (fun p => p.1 = k)).map (fun p => p.2)

/-- Dictionary assignment `processed_orgs[k] = e`: overwrite the entry in place when
the key is present, append it otherwise (dict keys are unique). -/
def cacheSet (cache : OrgCache) (k : String) (e : OrgEntry) : OrgCache :=
  match cache with
  | [] => [(k, e)]
  | p :: ps => if p.1 = k then (k, e) :: ps else p :: cacheSet ps k e

/-- The completeness test of the cache policy:
`not existing.get("website") or not existing.get("description")`
(an empty dict, an empty website, or an empty description all count as incomplete). -/
def infoIncomplete : Option OrgInfo → Bool
  | none => true
  | some i => i.website = "" || i.description = ""

/-- Observable outcome of one pass through the organization cache-and-retry block of
`match_bgm_games_and_save`: the local `org_info` value, the updated cache, whether
`get_organization_details` was called, and the record appended to the organization
store (if any). -/
structure ResolveOutcome where
  org_info : Option OrgInfo
  cache : OrgCache
  lookedUp : Bool
  appended : Option OrgInfo
deriving DecidableEq, Repr

/-- The organization cache-and-retry policy of `match_bgm_games_and_save` for one
non-empty `org_id`.  `lookup` abstracts the result of the (at most one) remote
`get_organization_details` call. -/
def resolveOrg (cache : OrgCache) (org_id : String) (lookup : Option OrgInfo) :
    ResolveOutcome :=
  let mark :=
    match cacheFind cache org_id with
    | some e =>
      if infoIncomplete e.info then
        (true, cacheSet cache org_id ⟨e.info, e.retry_count + 1⟩)
      else (false, cache)
    | none => (true, cacheSet cache org_id ⟨none, 1⟩)
  let should_retry := mark.1
  let cache1 := mark.2
  let rc := ((cacheFind cache1 org_id).map (fun e => e.retry_count)).getD 0
  if should_retry && decide (rc ≤ 3) then
    match lookup with
    | some i => ⟨some i, cacheSet cache1 org_id ⟨some i, rc⟩, true, some i⟩
    | none => ⟨none, cache1, true, none⟩
  else
    ⟨(cacheFind cache1 org_id).bind (fun e => e.info), cache1, false, none⟩

/-- One labelled link of the organization `website` field. -/
structure WebsiteEntry where
  title : String
  link : String
deriving DecidableEq, Repr

/-- The shape of the raw `website` field of an organization detail response: absent, a
plain string, or a list of labelled links. -/
inductive WebsiteField where
  | absent
  | str (s : String)
  | links (l : List WebsiteEntry)
deriving DecidableEq, Repr

/-- The `data.org` object of an organization detail response. -/
structure OrgData where
  name : String
  chineseName : String
  introduction : String
  birthday : String
  website : WebsiteField
deriving DecidableEq, Repr

/-- Python `str.lower()` (ASCII case folding, which is all `Char.toLower` performs and
all the priority titles need). -/
def lowerStr (s : String) : String := ⟨s.data.map Char.toLower⟩

/-- The priority order of website titles in `get_organization_details`. -/
def websitePriority : List String := ["homepage", "官网", "官方网站", "official website"]

/-- The inner `for site in org_data["website"]` loop for one priority title: the first
link whose title matches case-insensitively. -/
def firstTitleMatch (title : String) (l : List WebsiteEntry) : Option WebsiteEntry :=
  l.find? (fun site => lowerStr site.title = lowerStr title)

/-- The outer `for title in priority` loop: assign the first matching site's link for
each title in turn, stopping as soon as the assigned link is non-empty. -/
def priorityScan (l : List WebsiteEntry) : List String → String
  | [] => ""
  | t :: ts =>
    match firstTitleMatch t l with
    | some site => if site.link ≠ "" then site.link else priorityScan l ts
    | none => priorityScan l ts

/-- The first listed link of a website list (the fallback of the priority scan), empty
for an empty list. -/
def firstLink (l : List WebsiteEntry) : String :=
  match l with
  | [] => ""
  | site :: _ => site.link

/-- The whole website-extraction block of `get_organization_details`: only a
list-shaped field is examined; after the priority scan, an empty result falls back to
the first listed link. -/
def extractWebsite : WebsiteField → String
  | .links l =>
    let website := priorityScan l websitePriority
    if website = "" then firstLink l else website
  | .absent => ""
  | .str _ => ""

/-- Outcome of the HTTP request of `get_organization_details`.  `ok none` models a 200
response whose `data.org` is missing or empty. -/
inductive OrgResp where
  | ok (org : Option OrgData)
  | unauthorized
  | otherError (status : Nat)
deriving DecidableEq

/-- `get_organization_details`: build an `OrgInfo` from a successful response, `none`
on any failure (401 included — it is propagated to the caller, not retried). -/
def get_organization_details (org_id : String) (resp : OrgResp) : Option OrgInfo :=
  match resp with
  | .ok none => none
  | .ok (some d) =>
    some { id := org_id
           name := d.name
           chineseName := d.chineseName
           website := extractWebsite d.website
           description := d.introduction
           birthday := d.birthday }
  | .unauthorized => none
  | .otherError _ => none

/-- An Excel file as the store sees it: missing, corrupt (reading raises), locked
(readable, but writing raises `PermissionError`), or a readable workbook carrying its
rows.  The schema header row is implicit in the row type `α`. -/
inductive XFile (α : Type) where
  | missing
  | corrupt
  | locked (rows : List α)
  | wb (rows : List α)
deriving DecidableEq, Repr

/-- Reading a store file (`pd.read_excel` / `load_workbook`): succeeds on a readable
workbook (locked files can still be read), fails otherwise. -/
def readRows {α : Type} : XFile α → Option (List α)
  | .wb rows => some rows
  | .locked rows => some rows
  | .missing => none
  | .corrupt => none

/-- One row of the matched-results store (columns `bgm_id`, `bgm游戏`,
`日文名 (原始)`, `中文名 (原始)`, `name`, `chineseName`, `ym_id`, `score`, `orgId`,
`orgName`, `orgWebsite`, `orgDescription`, `匹配来源`). -/
structure MatchedRow where
  bgm_id : String
  bgm_game : String
  jp_orig : String
  cn_orig : String
  name : String
  chineseName : String
  ym_id : String
  score : ℚ
  orgId : String
  orgName : String
  orgWebsite : String
  orgDescription : String
  match_source : String
deriving DecidableEq, Repr

/-- `init_excel`: ensure the matched-results file exists and is readable; create a
fresh file with the header row when it is missing or `load_workbook` fails on it. -/
def init_excel (f : XFile MatchedRow) : XFile MatchedRow :=
  match f with
  | .missing => .wb []
  | .corrupt => .wb []
  | .locked rows => .locked rows
  | .wb rows => .wb rows

/-- `init_org_excel`: create the organization file with its header row only when the
file does not exist at all. -/
def init_org_excel (f : XFile OrgInfo) : XFile OrgInfo :=
  match f with
  | .missing => .wb []
  | .corrupt => .corrupt
  | .locked rows => .locked rows
  | .wb rows => .wb rows

/-- Result of one `append_to_excel` call: the new state of the destination file, plus
the rows written to the `.temp` sibling (locked destination) or to the `.backup`
sibling (any other error) when a fallback fired. -/
structure AppendOutcome (α : Type) where
  main : XFile α
  temp : Option (List α)
  backup : Option (List α)
deriving DecidableEq, Repr

/-- `append_to_excel`: read-existing + concatenate + rewrite for a readable file,
direct write for a missing file, `.temp` fallback on `PermissionError`, `.backup`
fallback on any other error (here: an unreadable existing file). -/
def append_to_excel {α : Type} (row_data : List α) (f : XFile α) : AppendOutcome α :=
  match f with
  | .missing => ⟨.wb row_data, none, none⟩
  | .wb rows => ⟨.wb (rows ++ row_data), none, none⟩
  | .locked rows => ⟨.locked rows, some row_data, none⟩
  | .corrupt => ⟨.corrupt, none, some row_data⟩

/-- One row of the Bangumi source table: the `id` cell (`none` models a missing or NaN
value, replaced by the synthetic `ROW_<index>`), and the two name cells (an empty
string models a NaN name after `strip()`). -/
structure SourceRow where
  id : Option String
  jp_name : String
  cn_name : String
deriving DecidableEq, Repr

/-- The `bgm_id` of a source row at position `idx`. -/
def bgmIdOf (idx : Nat) (r : SourceRow) : String :=
  match r.id with
  | some s => s
  | none => "ROW_" ++ toString idx

/-- The mutable state of one `match_bgm_games_and_save` run: the rows appended to the
matched-results store, the labels appended to the unmatched store, the in-memory
organization cache, and the rows appended to the organization store. -/
structure RunState where
  matched : List MatchedRow
  unmatched : List String
  orgCache : OrgCache
  orgStore : List OrgInfo
deriving DecidableEq, Repr

/-- `(org_info or {}).get(field, fallback)`: a field of the resolved organization
record, falling back to the raw candidate's value when resolution yielded nothing
(`None` or the empty dict). -/
def orgField (org_info : Option OrgInfo) (get : OrgInfo → String) (fallback : String) :
    String :=
  match org_info with
  | some i => get i
  | none => fallback

/-- The body of the per-record loop of `match_bgm_games_and_save`: skip an already
processed id, record an empty-name row as unmatched, otherwise select the best match,
resolve its organization through the cache-and-retry policy, and append one matched
row (or an unmatched label).  `search` abstracts `search_ym_top_matches` and
`orgLookup` abstracts `get_organization_details`. -/
def processRow (search : String → List Candidate) (orgLookup : String → Option OrgInfo)
    (processed : List String) (st : RunState) (idx : Nat) (r : SourceRow) : RunState :=
  let bgm_id := bgmIdOf idx r
  if processed.contains bgm_id then st
  else if r.jp_name = "" ∧ r.cn_name = "" then
    { st with unmatched := st.unmatched ++ ["ID_" ++ bgm_id ++ "_空名称"] }
  else
    let sel := selectBest r.jp_name r.cn_name search
    match sel.best with
    | some best =>
      let org_id := best.orgId
      let resolved :=
        if org_id ≠ "" then
          let out := resolveOrg st.orgCache org_id (orgLookup org_id)
          (out.org_info, out.cache, st.orgStore ++ out.appended.toList)
        else (none, st.orgCache, st.orgStore)
      let org_info := resolved.1
      let row : MatchedRow :=
        { bgm_id := bgm_id
          bgm_game := if r.jp_name ≠ "" then r.jp_name else r.cn_name
          jp_orig := r.jp_name
          cn_orig := r.cn_name
          name := best.name
          chineseName := best.chineseName
          ym_id := best.ym_id
          score := best.score
          orgId := org_id
          orgName := orgField org_info (fun i => i.name) best.orgName
          orgWebsite := orgField org_info (fun i => i.website) best.orgWebsite
          orgDescription := orgField org_info (fun i => i.description) best.orgDescription
          match_source := sel.source }
      { st with
        matched := st.matched ++ [row]
        orgCache := resolved.2.1
        orgStore := resolved.2.2 }
    | none => { st with unmatched := st.unmatched ++ ["ID_" ++ bgm_id ++ "_未匹配"] }

/-- The `for idx, row in df_bgm.iterrows()` loop. -/
def runFrom (search : String → List Candidate) (orgLookup : String → Option OrgInfo)
    (processed : List String) : Nat → RunState → List SourceRow → RunState
  | _, st, [] => st
  | idx, st, r :: rs =>
    runFrom search orgLookup processed (idx + 1) (processRow search orgLookup processed st idx r) rs

/-- One whole `match_bgm_games_and_save` run over the source rows, starting from the
set of already-persisted `bgm_id`s (`processed`) and the organization cache loaded from
the organization store (`initCache`). -/
def runMatch (rows : List SourceRow) (processed : List String)
    (search : String → List Candidate) (orgLookup : String → Option OrgInfo)
    (initCache : OrgCache) : RunState :=
  runFrom search orgLookup processed 0 ⟨[], [], initCache, []⟩ rows

/-- The `b2j` table of `difflib.SequenceMatcher` for the second sequence `b`: the
ascending list of positions of character `c` in `b`, except that with `autojunk` and
`len(b) >= 200`, characters occurring more than `len(b) // 100 + 1` times are treated
as popular and dropped from the table. -/
def b2j (b : List Char) (c : Char) : List Nat :=
  let idxs := (List.range b.length).filter (fun j => b.getD j ' ' = c)
  if 200 ≤ b.length ∧ b.length / 100 + 1 < idxs.length then [] else idxs

/-- The `j2len` dictionary of `find_longest_match`, as an association list. -/
abbrev JMap := List (Nat × Nat)

/-- `j2len.get(j, 0)`. -/
def jget (m : JMap) (j : Nat) : Nat :=
  ((m.find? (fun p => p.1 = j)).map (fun p => p.2)).getD 0

/-- The inner `for j in b2j.get(a[i], [])` loop of `find_longest_match` at row `i`:
positions below `blo` are skipped, the loop breaks at the first position at or beyond
`bhi` (the position lists of `b2j` are ascending), and each surviving position `j`
extends the diagonal run ending at `(i-1, j-1)`.  Returns the built `newj2len` and the
updated running best `(besti, bestj, bestsize)`. -/
def flmInner (j2len : JMap) (blo bhi i : Nat) :
    List Nat → JMap → Nat × Nat × Nat → JMap × (Nat × Nat × Nat)
  | [], newmap, best => (newmap, best)
  | j :: js, newmap, best =>
    if j < blo then flmInner j2len blo bhi i js newmap best
    else if bhi ≤ j then (newmap, best)
    else
      let k := (if j = 0 then 0 else jget j2len (j - 1)) + 1
      let newmap1 := (j, k) :: newmap
      let best1 := if best.2.2 < k then (i + 1 - k, j + 1 - k, k) else best
      flmInner j2len blo bhi i js newmap1 best1

/-- The main double loop of `find_longest_match` over `i in range(alo, ahi)`, threading
`j2len` from one row to the next. -/
def flmMain (a b : List Char) (alo ahi blo bhi : Nat) : Nat × Nat × Nat :=
  ((List.range' alo (ahi - alo)).foldl
    (fun (st : JMap × (Nat × Nat × Nat)) i =>
      flmInner st.1 blo bhi i (b2j b (a.getD i ' ')) [] st.2)
    ([], (alo, blo, 0))).2

/-- The first `while` extension of `find_longest_match`: grow the best block downwards
while the preceding characters match (the junk set is empty, so the junk conditions of
the source vanish).  The fuel is initialised to `besti`, which never runs out before
the guard fails. -/
def extLo (a b : List Char) (alo blo : Nat) :
    Nat → Nat → Nat → Nat → Nat × Nat × Nat
  | 0, besti, bestj, k => (besti, bestj, k)
  | fuel + 1, besti, bestj, k =>
    if alo < besti ∧ blo < bestj ∧ a.getD (besti - 1) ' ' = b.getD (bestj - 1) ' ' then
      extLo a b alo blo fuel (besti - 1) (bestj - 1) (k + 1)
    else (besti, bestj, k)

/-- The second `while` extension of `find_longest_match`: grow the best block upwards
while the following characters match.  The fuel is initialised to `ahi - (besti + k)`,
which never runs out before the guard fails. -/
def extHi (a b : List Char) (ahi bhi : Nat) :
    Nat → Nat → Nat → Nat → Nat
  | 0, _, _, k => k
  | fuel + 1, besti, bestj, k =>
    if besti + k < ahi ∧ bestj + k < bhi ∧ a.getD (besti + k) ' ' = b.getD (bestj + k) ' ' then
      extHi a b ahi bhi fuel besti bestj (k + 1)
    else k

/-- `SequenceMatcher.find_longest_match(alo, ahi, blo, bhi)` with an empty junk set. -/
def find_longest_match (a b : List Char) (alo ahi blo bhi : Nat) : Nat × Nat × Nat :=
  let m := flmMain a b alo ahi blo bhi
  let lo := extLo a b alo blo m.1 m.1 m.2.1 m.2.2
  (lo.1, lo.2.1, extHi a b ahi bhi (ahi - (lo.1 + lo.2.2)) lo.1 lo.2.1 lo.2.2)

/-- The total size of the matching blocks of `get_matching_blocks` on the interval
`[alo, ahi) × [blo, bhi)` — the recursion of the source's queue, summed.  (Only the sum
of the block sizes feeds into `ratio()`.)  The fuel is initialised above the measure
`(ahi - alo) + (bhi - blo)`, which shrinks strictly at every recursive call, so the
fuel never runs out. -/
def matchingSum (a b : List Char) : Nat → Nat → Nat → Nat → Nat → Nat
  | 0, _, _, _, _ => 0
  | fuel + 1, alo, ahi, blo, bhi =>
    let m := find_longest_match a b alo ahi blo bhi
    let i := m.1
    let j := m.2.1
    let k := m.2.2
    if k = 0 then 0
    else
      k + (if alo < i ∧ blo < j then matchingSum a b fuel alo i blo j else 0)
        + (if i + k < ahi ∧ j + k < bhi then matchingSum a b fuel (i + k) ahi (j + k) bhi else 0)

/-- `SequenceMatcher(None, a, b).ratio()`: `2 * M / (len(a) + len(b))`, and `1.0` when
both sequences are empty. -/
def ratioOf (a b : List Char) : ℚ :=
  let m := matchingSum a b (a.length + b.length + 1) 0 a.length 0 b.length
  if a.length + b.length = 0 then 1
  else mkRat (2 * m) (a.length + b.length)

/-- `calculate_similarity`: the sequence-matching ratio of the two lowercased
strings. -/
def calculate_similarity (str1 str2 : String) : ℚ :=
  ratioOf (str1.data.map Char.toLower) (str2.data.map Char.toLower)

/-- One row of the third (Bangumi-side) table of `match_ym_with_bangumi`. -/
structure BgRow where
  game_name : String
  game_id : String
  rating : String
  rank : String
  votes : String
  summary : String
deriving DecidableEq, Repr

/-- The fields of a matched-results row that `match_ym_with_bangumi` reads. -/
structure YmRow where
  name : String
  chineseName : String
  ym_id : String
deriving DecidableEq, Repr

/-- One output row of `match_ym_with_bangumi`. -/
structure AlignedRow where
  ym_id : String
  ym_name : String
  ym_chinese_name : String
  bangumi_id : String
  bangumi_name : String
  bangumi_score : String
  bangumi_rank : String
  bangumi_votes : String
  bangumi_summary : String
  match_score : ℚ
deriving DecidableEq, Repr

/-- The inner loop of `match_ym_with_bangumi`: running best Bangumi row by strict `>`
comparison of similarity, starting from `(None, 0.0)`. -/
def bestBangumi (ymName : String) (bgRows : List BgRow) : Option BgRow × ℚ :=
  bgRows.foldl
    (fun (st : Option BgRow × ℚ) bg =>
      if st.2 < calculate_similarity ymName bg.game_name then
        (some bg, calculate_similarity ymName bg.game_name)
      else st)
    (none, 0)

/-- The per-ym-row body of `match_ym_with_bangumi`: emit a flattened joined row exactly
when a best match exists and its similarity reaches `0.8`. -/
def alignRow (ym : YmRow) (bgRows : List BgRow) : Option AlignedRow :=
  match (bestBangumi ym.name bgRows).1 with
  | some bg =>
    if mkRat 4 5 ≤ (bestBangumi ym.name bgRows).2 then
      some { ym_id := ym.ym_id
             ym_name := ym.name
             ym_chinese_name := ym.chineseName
             bangumi_id := bg.game_id
             bangumi_name := bg.game_name
             bangumi_score := bg.rating
             bangumi_rank := bg.rank
             bangumi_votes := bg.votes
             bangumi_summary := bg.summary
             match_score := round4 (bestBangumi ym.name bgRows).2 }
    else none
  | none => none

/-- `match_ym_with_bangumi`: the list of emitted joined rows. -/
def match_ym_with_bangumi (ymRows : List YmRow) (bgRows : List BgRow) : List AlignedRow :=
  ymRows.filterMap (fun ym => alignRow ym bgRows)

/-- The maximum similarity of `ymName` against every name of the third table (the
"keep only the maximum" quantity of the Secondary Aligner), `0` for an empty table. -/
def maxSimilarity (ymName : String) (bgRows : List BgRow) : ℚ :=
  bgRows.foldl (fun acc bg => max acc (calculate_similarity ymName bg.game_name)) 0

/-- Claim C1's global conclusion, as a predicate on a run's appended output: no source
id ever gains two matched rows. -/
def noDuplicateSourceIds (st : RunState) : Prop :=
  (st.matched.map (fun m => m.bgm_id)).Nodup

/-- A concrete candidate returned by the search oracle of the C1 scenario. -/
def candC1 : Candidate := ⟨"Test", "", "G1", 1, "", "", "", ""⟩

/-- A concrete search oracle: the keyword `"a"` matches `candC1`. -/
def searchC1 : String → List Candidate := fun k => if k = "a" then [candC1] else []

/-- A source table whose two rows carry the same id `"1"`. -/
def rowsC1 : List SourceRow := [⟨some "1", "a", ""⟩, ⟨some "1", "a", ""⟩]

/-- The matched row that processing either row of `rowsC1` produces. -/
def rowOutC1 : MatchedRow :=
  ⟨"1", "a", "a", "", "Test", "", "G1", 1, "", "", "", "", "日文名"⟩

/-- A concrete search oracle for the C3 witness: both names match with score `1`. -/
def searchC3 : String → List Candidate := fun k =>
  if k = "jp" then [⟨"A", "", "1", 1, "", "", "", ""⟩]
  else if k = "cn" then [⟨"B", "", "2", 1, "", "", "", ""⟩]
  else []

/-- The website list of the C8 counterexample: a non-priority link listed first, and a
`homepage`-titled link whose URL is empty. -/
def exWebsiteList : List WebsiteEntry := [⟨"other", "http://a"⟩, ⟨"homepage", ""⟩]

/-- Claim C8's reading of the selection rule: the link of the first site matching the
first priority title that matches at all (whatever that link is), with the
first-listed-link fallback applying only when no title matches. -/
def claimWebsite (l : List WebsiteEntry) : String :=
  match websitePriority.findSome? (fun t => (firstTitleMatch t l).map (fun s => s.link)) with
  | some link => link
  | none => firstLink l

/-- The amended selection rule, read off the code: scan the priority titles in order,
taking the link of the first site matching each title but skipping it (and moving on to
later titles) when that link is empty; when no non-empty link was selected this way,
fall back to the first listed link. -/
def amendedWebsite (l : List WebsiteEntry) : String :=
  match websitePriority.findSome?
      (fun t => (firstTitleMatch t l).bind
        (fun s => if s.link = "" then none else some s.link)) with
  | some link => link
  | none => firstLink l

/-- Size bounds of the entries of a `j2len` map: every diagonal run of length `k`
ending at column `j` fits between `blo` and `j`, and between `alo` and the row bound
`B`. -/
def JBoundLe (alo blo B : Nat) (m : JMap) : Prop :=
  ∀ p ∈ m, blo ≤ p.1 ∧ 1 ≤ p.2 ∧ p.2 + blo ≤ p.1 + 1 ∧ p.2 + alo ≤ B

/-- The best block `(besti, bestj, bestsize)` lies inside `[alo, ahi) × [blo, bhi)`. -/
def BBound (alo ahi blo bhi : Nat) (best : Nat × Nat × Nat) : Prop :=
  alo ≤ best.1 ∧ blo ≤ best.2.1 ∧ best.1 + best.2.2 ≤ ahi ∧ best.2.1 + best.2.2 ≤ bhi

theorem searchLoop_attempts_le (resp : Nat → SearchResp) (refresh : Nat → Option String)
    (top_k : Nat) (threshold : ℚ) :
    ∀ (fuel : Nat) (tok : String) (reqs refs : Nat),
      (searchLoop resp refresh top_k threshold fuel tok reqs refs).attempts ≤ reqs + fuel := by
  intro fuel
  induction fuel with
  | zero => intro tok reqs refs; simp [searchLoop]
  | succ n ih =>
    intro tok reqs refs
    rw [searchLoop]
    cases hr : resp reqs with
    | ok items => simp
    | unauthorized =>
      cases hf : refresh refs with
      | some t =>
        simp only []
        calc (searchLoop resp refresh top_k threshold n t (reqs + 1) (refs + 1)).attempts
            ≤ (reqs + 1) + n := ih t (reqs + 1) (refs + 1)
          _ ≤ reqs + (n + 1) := by omega
      | none => simp
    | otherError s => simp

theorem searchLoop_all_unauthorized (resp : Nat → SearchResp) (refresh : Nat → Option String)
    (top_k : Nat) (threshold : ℚ) :
    ∀ (fuel : Nat) (tok : String) (reqs refs : Nat),
      (∀ i, i < fuel → resp (reqs + i) = SearchResp.unauthorized) →
      (∀ j, j < fuel → (refresh (refs + j)).isSome = true) →
      (searchLoop resp refresh top_k threshold fuel tok reqs refs).result = []
      ∧ (searchLoop resp refresh top_k threshold fuel tok reqs refs).attempts = reqs + fuel
      ∧ (searchLoop resp refresh top_k threshold fuel tok reqs refs).refreshes = refs + fuel := by
  intro fuel
  induction fuel with
  | zero => intro tok reqs refs _ _; simp [searchLoop]
  | succ n ih =>
    intro tok reqs refs hresp href
    have h0 : resp reqs = SearchResp.unauthorized := by simpa using hresp 0 (Nat.succ_pos n)
    have hr0 : (refresh refs).isSome = true := by simpa using href 0 (Nat.succ_pos n)
    obtain ⟨t, ht⟩ := Option.isSome_iff_exists.mp hr0
    rw [searchLoop]
    simp only [h0, ht]
    have hresp1 : ∀ i, i < n → resp (reqs + 1 + i) = SearchResp.unauthorized := by
      intro i hi
      have := hresp (i + 1) (by omega)
      simpa [Nat.add_assoc, Nat.add_comm 1 i] using this
    have href1 : ∀ j, j < n → (refresh (refs + 1 + j)).isSome = true := by
      intro j hj
      have := href (j + 1) (by omega)
      simpa [Nat.add_assoc, Nat.add_comm 1 j] using this
    have := ih t (reqs + 1) (refs + 1) hresp1 href1
    refine ⟨this.1, ?_, ?_⟩ <;> omega

theorem searchLoop_refresh_fail (resp : Nat → SearchResp) (refresh : Nat → Option String)
    (top_k : Nat) (threshold : ℚ) :
    ∀ (fuel k : Nat) (tok : String) (reqs refs : Nat),
      k < fuel →
      (∀ i, i ≤ k → resp (reqs + i) = SearchResp.unauthorized) →
      (∀ j, j < k → (refresh (refs + j)).isSome = true) →
      refresh (refs + k) = none →
      (searchLoop resp refresh top_k threshold fuel tok reqs refs).result = [] := by
  intro fuel
  induction fuel with
  | zero => intro k tok reqs refs hk; omega
  | succ n ih =>
    intro k tok reqs refs hk hresp href hfail
    have h0 : resp reqs = SearchResp.unauthorized := by simpa using hresp 0 (Nat.zero_le k)
    cases k with
    | zero =>
      rw [searchLoop]
      simp only [h0]
      simp only [Nat.add_zero] at hfail
      simp [hfail]
    | succ m =>
      have hr0 : (refresh refs).isSome = true := by simpa using href 0 (Nat.succ_pos m)
      obtain ⟨t, ht⟩ := Option.isSome_iff_exists.mp hr0
      rw [searchLoop]
      simp only [h0, ht]
      apply ih m t (reqs + 1) (refs + 1) (by omega)
      · intro i hi
        have := hresp (i + 1) (by omega)
        simpa [Nat.add_assoc, Nat.add_comm 1 i] using this
      · intro j hj
        have := href (j + 1) (by omega)
        simpa [Nat.add_assoc, Nat.add_comm 1 j] using this
      · have : refs + 1 + m = refs + (m + 1) := by omega
        rw [this]
        exact hfail

/-- Claim C5: a single `search_ym_top_matches` call issues at most 4 request attempts
in total (including the first); each non-final 401 response triggers one credential
refresh before the next attempt (on a 401, the call continues as a fresh loop with the
refreshed credential and one fewer attempt left); and both exhausting the 4 attempts on
repeated 401s and a failed credential refresh make the call return an empty result. -/
theorem c5_retry_bound :
    (∀ (resp : Nat → SearchResp) (refresh : Nat → Option String) (token : String)
        (top_k : Nat) (threshold : ℚ),
        (search_ym_top_matches resp refresh token top_k threshold).attempts ≤ 4)
    ∧ (∀ (resp : Nat → SearchResp) (refresh : Nat → Option String) (token : String)
        (top_k : Nat) (threshold : ℚ) (t1 : String),
        resp 0 = SearchResp.unauthorized → refresh 0 = some t1 →
        search_ym_top_matches resp refresh token top_k threshold =
          searchLoop resp refresh top_k threshold 3 t1 1 1)
    ∧ (∀ (resp : Nat → SearchResp) (refresh : Nat → Option String) (token : String)
        (top_k : Nat) (threshold : ℚ),
        (∀ i, i < 4 → resp i = SearchResp.unauthorized) →
        (∀ j, j < 4 → (refresh j).isSome = true) →
        (search_ym_top_matches resp refresh token top_k threshold).result = []
        ∧ (search_ym_top_matches resp refresh token top_k threshold).attempts = 4
        ∧ (search_ym_top_matches resp refresh token top_k threshold).refreshes = 4)
    ∧ (∀ (resp : Nat → SearchResp) (refresh : Nat → Option String) (token : String)
        (top_k : Nat) (threshold : ℚ) (k : Nat),
        k < 4 →
        (∀ i, i ≤ k → resp i = SearchResp.unauthorized) →
        (∀ j, j < k → (refresh j).isSome = true) →
        refresh k = none →
        (search_ym_top_matches resp refresh token top_k threshold).result = []) := by
  refine ⟨?_, ?_, ?_, ?_⟩
  · intro resp refresh token top_k threshold
    simpa using searchLoop_attempts_le resp refresh top_k threshold 4 token 0 0
  · intro resp refresh token top_k threshold t1 h0 hr
    rw [search_ym_top_matches, searchLoop]
    simp [h0, hr]
  · intro resp refresh token top_k threshold hresp href
    have := searchLoop_all_unauthorized resp refresh top_k threshold 4 token 0 0
      (by simpa using hresp) (by simpa using href)
    simpa [search_ym_top_matches] using this
  · intro resp refresh token top_k threshold k hk hresp href hfail
    exact searchLoop_refresh_fail resp refresh top_k threshold 4 k token 0 0 hk
      (by simpa using hresp) (by simpa using href) (by simpa using hfail)

/-- Witness for C5 at concrete oracles: with every response a 401 and refreshes always
succeeding, the call returns no candidates after exactly 4 attempts and 4 refreshes. -/
theorem c5_retry_bound_witness :
    ((search_ym_top_matches (fun _ => SearchResp.unauthorized) (fun _ => some "t")
        "t0" 3 default_threshold).result = []
      ∧ (search_ym_top_matches (fun _ => SearchResp.unauthorized) (fun _ => some "t")
          "t0" 3 default_threshold).attempts = 4
      ∧ (search_ym_top_matches (fun _ => SearchResp.unauthorized) (fun _ => some "t")
          "t0" 3 default_threshold).refreshes = 4) :=
  c5_retry_bound.2.2.1 (fun _ => SearchResp.unauthorized) (fun _ => some "t") "t0" 3
    default_threshold (fun _ _ => rfl) (fun _ _ => rfl)

/-- Claim C4: for every successful (status-200) search call, after sorting the parsed
candidates descending by score, exactly one candidate is returned when the top score is
greater than or equal to the threshold (equality included), and otherwise at most
`top_k` candidates are returned. -/
theorem c4_threshold_short_circuit :
    (∀ (resp : Nat → SearchResp) (refresh : Nat → Option String) (token : String)
        (items : List RawItem) (top_k : Nat) (threshold : ℚ),
        resp 0 = SearchResp.ok items →
        (search_ym_top_matches resp refresh token top_k threshold).result =
          searchSuccess items top_k threshold)
    ∧ (∀ (items : List RawItem) (top_k : Nat) (threshold : ℚ) (m : Candidate)
        (rest : List Candidate),
        sortByScoreDesc (parse_search_response items) = m :: rest →
        (threshold ≤ m.score →
          searchSuccess items top_k threshold = [m]
          ∧ (searchSuccess items top_k threshold).length = 1)
        ∧ (m.score < threshold →
          searchSuccess items top_k threshold = (m :: rest).take top_k
          ∧ (searchSuccess items top_k threshold).length ≤ top_k))
    ∧ (∀ (items : List RawItem) (top_k : Nat) (threshold : ℚ),
        sortByScoreDesc (parse_search_response items) = [] →
        searchSuccess items top_k threshold = []) := by
  refine ⟨?_, ?_, ?_⟩
  · intro resp refresh token items top_k threshold h
    rw [search_ym_top_matches, searchLoop]
    simp [h]
  · intro items top_k threshold m rest hsort
    constructor
    · intro hth
      have h1 : searchSuccess items top_k threshold = [m] := by
        rw [searchSuccess]
        simp only [hsort, if_pos hth]
      exact ⟨h1, by rw [h1]; rfl⟩
    · intro hlt
      have h2 : searchSuccess items top_k threshold = (m :: rest).take top_k := by
        rw [searchSuccess]
        simp only [hsort, if_neg (not_le.mpr hlt)]
      refine ⟨h2, ?_⟩
      rw [h2]
      simp [List.length_take]
  · intro items top_k threshold hsort
    rw [searchSuccess]
    simp [hsort]

/-- Witness for C4: a response whose top score is exactly the default threshold `0.8`
yields exactly one candidate even with `top_k = 3` and a second candidate present. -/
theorem c4_threshold_short_circuit_witness :
    searchSuccess
        [⟨"A", "", "1", some (mkRat 4 5), none, "", "", "", ""⟩,
         ⟨"B", "", "2", some (mkRat 1 2), none, "", "", "", ""⟩]
        default_top_k default_threshold =
      [⟨"A", "", "1", mkRat 4 5, "", "", "", ""⟩] :=
  ((c4_threshold_short_circuit.2.1
      [⟨"A", "", "1", some (mkRat 4 5), none, "", "", "", ""⟩,
       ⟨"B", "", "2", some (mkRat 1 2), none, "", "", "", ""⟩]
      default_top_k default_threshold
      ⟨"A", "", "1", mkRat 4 5, "", "", "", ""⟩
      [⟨"B", "", "2", mkRat 1 2, "", "", "", ""⟩]
      (by decide)).1 (by decide)).1

/-- Claim C6 counterexample: `init_org_excel` does not recreate a corrupt organization
file — it only creates the file when it is missing — so the organization store's
initialization violates the "recreate whenever unreadable or corrupt" clause. -/
theorem c6_counterexample :
    init_org_excel XFile.corrupt = XFile.corrupt
    ∧ ∀ rows : List OrgInfo, init_org_excel XFile.corrupt ≠ XFile.wb rows := by
  refine ⟨rfl, ?_⟩
  intro rows h
  rw [init_org_excel] at h
  exact XFile.noConfusion h

/-- Claim C6 amended: `init_excel` (matched-results store) idempotently ensures its
file exists with the schema header, recreating it when missing or corrupt; but
`init_org_excel` (organization store) only creates a fresh file when the file is
missing and leaves any existing file — corrupt included — untouched.  Both operations
are idempotent. -/
theorem c6_amended :
    (∀ f : XFile MatchedRow,
        ((f = XFile.missing ∨ f = XFile.corrupt) → init_excel f = XFile.wb [])
        ∧ (∀ rows, f = XFile.wb rows → init_excel f = f)
        ∧ (∀ rows, f = XFile.locked rows → init_excel f = f)
        ∧ init_excel (init_excel f) = init_excel f)
    ∧ (∀ f : XFile OrgInfo,
        (f = XFile.missing → init_org_excel f = XFile.wb [])
        ∧ (f ≠ XFile.missing → init_org_excel f = f)
        ∧ init_org_excel (init_org_excel f) = init_org_excel f) := by
  constructor
  · intro f
    refine ⟨?_, ?_, ?_, ?_⟩
    · rintro (rfl | rfl) <;> rfl
    · rintro rows rfl; rfl
    · rintro rows rfl; rfl
    · cases f <;> rfl
  · intro f
    refine ⟨?_, ?_, ?_⟩
    · rintro rfl; rfl
    · intro h; cases f with
      | missing => exact absurd rfl h
      | corrupt => rfl
      | locked rows => rfl
      | wb rows => rfl
    · cases f <;> rfl

/-- Witness for C6 (amended): a corrupt matched-results file is recreated with a fresh
header, while a readable organization file is left as it is. -/
theorem c6_amended_witness :
    init_excel XFile.corrupt = XFile.wb []
    ∧ init_org_excel (XFile.wb [⟨"1", "N", "", "w", "d", "b"⟩]) =
        XFile.wb [⟨"1", "N", "", "w", "d", "b"⟩] :=
  ⟨(c6_amended.1 XFile.corrupt).1 (Or.inr rfl),
   (c6_amended.2 (XFile.wb [⟨"1", "N", "", "w", "d", "b"⟩])).2.1 (by simp)⟩

/-- Claim C7: appending a matched record to a readable matched-results store and
reloading the store yields, as its last row, a record equal in all fields to the one
appended, with neither fallback file written. -/
theorem c7_append_roundtrip : ∀ (rows : List MatchedRow) (r : MatchedRow),
    readRows (append_to_excel [r] (XFile.wb rows)).main = some (rows ++ [r])
    ∧ (rows ++ [r]).getLast? = some r
    ∧ (append_to_excel [r] (XFile.wb rows)).temp = none
    ∧ (append_to_excel [r] (XFile.wb rows)).backup = none := by
  intro rows r
  exact ⟨rfl, by simp, rfl, rfl⟩

/-- Claim C10: a successful organization-detail response whose `website` field is a
plain string produces a record whose website is the empty string — the string value is
discarded. -/
theorem c10_string_website_discarded : ∀ (org_id s : String) (d : OrgData),
    d.website = WebsiteField.str s →
    get_organization_details org_id (OrgResp.ok (some d)) =
      some { id := org_id, name := d.name, chineseName := d.chineseName,
             website := "", description := d.introduction, birthday := d.birthday } := by
  intro org_id s d h
  rw [get_organization_details]
  simp [h, extractWebsite]

/-- Witness for C10 at a concrete response carrying a string-shaped website. -/
theorem c10_string_website_discarded_witness :
    get_organization_details "7"
        (OrgResp.ok (some ⟨"N", "CN", "intro", "2001", WebsiteField.str "http://direct"⟩)) =
      some ⟨"7", "N", "CN", "", "intro", "2001"⟩ :=
  c10_string_website_discarded "7" "http://direct"
    ⟨"N", "CN", "intro", "2001", WebsiteField.str "http://direct"⟩ rfl

/-- Claim C3: best-match selection uses strict `>` comparison with the
Japanese-name variant evaluated first, so equal top scores keep the Japanese-name
candidate (recording `日文名` as the source field), while a strictly higher
Chinese-name score selects the Chinese-name candidate (recording `中文名`). -/
theorem c3_tie_keeps_first_variant :
    ∀ (search : String → List Candidate) (jp_name cn_name : String)
      (a b : Candidate) (ta tb : List Candidate),
      jp_name ≠ "" → cn_name ≠ "" →
      search jp_name = a :: ta → search cn_name = b :: tb → 0 ≤ a.score →
      (b.score ≤ a.score →
        selectBest jp_name cn_name search = ⟨some a, a.score, "日文名"⟩)
      ∧ (a.score < b.score →
        selectBest jp_name cn_name search = ⟨some b, b.score, "中文名"⟩) := by
  intro search jp cn a b ta tb hjp hcn hsa hsb ha
  have hgt : a.score > (-1 : ℚ) := lt_of_lt_of_le (by norm_num) ha
  constructor
  · intro hle
    rw [selectBest]
    simp only [hjp, hcn, hsa, hsb, if_pos hgt, if_neg (not_lt.mpr hle), ne_eq,
      not_false_iff, if_true, ite_true]
  · intro hlt
    rw [selectBest]
    simp only [hjp, hcn, hsa, hsb, if_pos hgt, if_pos hlt, ne_eq,
      not_false_iff, if_true, ite_true]

/-- Witness for C3: both names return score-1 candidates (a tie), and the
Japanese-name candidate wins with source field `日文名`. -/
theorem c3_tie_keeps_first_variant_witness :
    selectBest "jp" "cn" searchC3 = ⟨some ⟨"A", "", "1", 1, "", "", "", ""⟩, 1, "日文名"⟩ :=
  (c3_tie_keeps_first_variant searchC3 "jp" "cn" ⟨"A", "", "1", 1, "", "", "", ""⟩
      ⟨"B", "", "2", 1, "", "", "", ""⟩ [] [] (by decide) (by decide) (by decide)
      (by decide) (by decide)).1 (by decide)

theorem cacheFind_cacheSet (cache : OrgCache) (k : String) (e : OrgEntry) :
    cacheFind (cacheSet cache k e) k = some e := by
  induction cache with
  | nil => simp [cacheSet, cacheFind, List.find?]
  | cons p ps ih =>
    by_cases h : p.1 = k
    · simp [cacheSet, h, cacheFind, List.find?]
    · simp only [cacheSet, h, ite_false, if_false]
      simpa [cacheFind, List.find?, h] using ih

theorem resolveOrg_unseen_some (cache : OrgCache) (org_id : String) (i : OrgInfo)
    (h : cacheFind cache org_id = none) :
    resolveOrg cache org_id (some i) =
      ⟨some i, cacheSet (cacheSet cache org_id ⟨none, 1⟩) org_id ⟨some i, 1⟩, true, some i⟩ := by
  rw [resolveOrg.eq_def]
  simp [h, cacheFind_cacheSet]

theorem resolveOrg_unseen_none (cache : OrgCache) (org_id : String)
    (h : cacheFind cache org_id = none) :
    resolveOrg cache org_id none =
      ⟨none, cacheSet cache org_id ⟨none, 1⟩, true, none⟩ := by
  rw [resolveOrg.eq_def]
  simp [h, cacheFind_cacheSet]

theorem resolveOrg_incomplete_some (cache : OrgCache) (org_id : String) (e : OrgEntry)
    (i : OrgInfo) (h : cacheFind cache org_id = some e)
    (hinc : infoIncomplete e.info = true) (hrc : e.retry_count + 1 ≤ 3) :
    resolveOrg cache org_id (some i) =
      ⟨some i,
       cacheSet (cacheSet cache org_id ⟨e.info, e.retry_count + 1⟩) org_id
         ⟨some i, e.retry_count + 1⟩,
       true, some i⟩ := by
  rw [resolveOrg.eq_def]
  simp [h, hinc, cacheFind_cacheSet, hrc]

theorem resolveOrg_incomplete_none (cache : OrgCache) (org_id : String) (e : OrgEntry)
    (h : cacheFind cache org_id = some e)
    (hinc : infoIncomplete e.info = true) (hrc : e.retry_count + 1 ≤ 3) :
    resolveOrg cache org_id none =
      ⟨none, cacheSet cache org_id ⟨e.info, e.retry_count + 1⟩, true, none⟩ := by
  rw [resolveOrg.eq_def]
  simp [h, hinc, cacheFind_cacheSet, hrc]

theorem resolveOrg_exhausted (cache : OrgCache) (org_id : String) (e : OrgEntry)
    (lookup : Option OrgInfo) (h : cacheFind cache org_id = some e)
    (hinc : infoIncomplete e.info = true) (hrc : ¬ e.retry_count + 1 ≤ 3) :
    resolveOrg cache org_id lookup =
      ⟨e.info, cacheSet cache org_id ⟨e.info, e.retry_count + 1⟩, false, none⟩ := by
  rw [resolveOrg.eq_def]
  simp [h, hinc, cacheFind_cacheSet, hrc]

theorem resolveOrg_complete (cache : OrgCache) (org_id : String) (e : OrgEntry)
    (lookup : Option OrgInfo) (h : cacheFind cache org_id = some e)
    (hinc : infoIncomplete e.info = false) :
    resolveOrg cache org_id lookup = ⟨e.info, cache, false, none⟩ := by
  rw [resolveOrg.eq_def]
  simp [h, hinc]

/-- Claim C2: the cache-and-retry policy performs a remote organization lookup exactly
when the entry is marked for lookup (unseen this run, or cached record missing website
or description) and its (just-updated) retry counter is at most 3; once the counter
exceeds 3, a further resolve issues no remote request and returns the currently cached,
possibly incomplete, record (and appends nothing to the organization store). -/
theorem c2_lookup_gate :
    ∀ (cache : OrgCache) (org_id : String) (lookup : Option OrgInfo),
      ((resolveOrg cache org_id lookup).lookedUp = true ↔
        ((cacheFind cache org_id = none
            ∨ ∃ e, cacheFind cache org_id = some e ∧ infoIncomplete e.info = true)
          ∧ ∃ e1, cacheFind (resolveOrg cache org_id lookup).cache org_id = some e1
              ∧ e1.retry_count ≤ 3))
      ∧ (∀ e, cacheFind cache org_id = some e → 3 < e.retry_count →
          (resolveOrg cache org_id lookup).lookedUp = false
          ∧ (resolveOrg cache org_id lookup).org_info = e.info
          ∧ (resolveOrg cache org_id lookup).appended = none) := by
  intro cache org_id lookup
  constructor
  · cases hfind : cacheFind cache org_id with
    | none =>
      cases lookup with
      | some i =>
        rw [resolveOrg_unseen_some cache org_id i hfind]
        constructor
        · intro _
          exact ⟨Or.inl rfl, ⟨some i, 1⟩, cacheFind_cacheSet _ _ _, by norm_num⟩
        · intro _; rfl
      | none =>
        rw [resolveOrg_unseen_none cache org_id hfind]
        constructor
        · intro _
          exact ⟨Or.inl rfl, ⟨none, 1⟩, cacheFind_cacheSet _ _ _, by norm_num⟩
        · intro _; rfl
    | some e =>
      cases hinc : infoIncomplete e.info with
      | true =>
        by_cases hrc : e.retry_count + 1 ≤ 3
        · cases lookup with
          | some i =>
            rw [resolveOrg_incomplete_some cache org_id e i hfind hinc hrc]
            constructor
            · intro _
              exact ⟨Or.inr ⟨e, rfl, hinc⟩, ⟨some i, e.retry_count + 1⟩,
                cacheFind_cacheSet _ _ _, hrc⟩
            · intro _; rfl
          | none =>
            rw [resolveOrg_incomplete_none cache org_id e hfind hinc hrc]
            constructor
            · intro _
              exact ⟨Or.inr ⟨e, rfl, hinc⟩, ⟨e.info, e.retry_count + 1⟩,
                cacheFind_cacheSet _ _ _, hrc⟩
            · intro _; rfl
        · rw [resolveOrg_exhausted cache org_id e lookup hfind hinc hrc]
          constructor
          · intro h; cases h
          · rintro ⟨-, e1, he1, hle⟩
            rw [cacheFind_cacheSet] at he1
            cases he1
            exact absurd hle hrc
      | false =>
        rw [resolveOrg_complete cache org_id e lookup hfind hinc]
        constructor
        · intro h; cases h
        · rintro ⟨h1, -⟩
          rcases h1 with h1 | ⟨e2, he2, hi2⟩
          · cases h1
          · injection he2 with he2
            subst he2
            rw [hinc] at hi2
            cases hi2
  · intro e hfind hrc
    cases hinc : infoIncomplete e.info with
    | true =>
      rw [resolveOrg_exhausted cache org_id e lookup hfind hinc (by omega)]
      exact ⟨rfl, rfl, rfl⟩
    | false =>
      rw [resolveOrg_complete cache org_id e lookup hfind hinc]
      exact ⟨rfl, rfl, rfl⟩

/-- Witness for C2: a cached incomplete entry whose retry counter is already 4 is not
looked up again; the resolve returns the cached (incomplete) record. -/
theorem c2_lookup_gate_witness :
    (resolveOrg [("5", ⟨none, 4⟩)] "5" (some ⟨"5", "N", "", "w", "d", "b"⟩)).lookedUp = false
    ∧ (resolveOrg [("5", ⟨none, 4⟩)] "5" (some ⟨"5", "N", "", "w", "d", "b"⟩)).org_info = none
    ∧ (resolveOrg [("5", ⟨none, 4⟩)] "5" (some ⟨"5", "N", "", "w", "d", "b"⟩)).appended = none :=
  (c2_lookup_gate [("5", ⟨none, 4⟩)] "5" (some ⟨"5", "N", "", "w", "d", "b"⟩)).2
    ⟨none, 4⟩ (by decide) (by decide)

/-- Claim C8 counterexample: on a website list whose `homepage`-titled link is empty
and whose first listed link is `"http://a"` with a non-priority title, the code
returns the first listed link `"http://a"`, while the claim's selection rule (take the
link of the first matching priority title; fall back to the first listed link only when
no title matches) yields `""` — so the claim, as stated, is false on this input. -/
theorem c8_counterexample :
    extractWebsite (WebsiteField.links exWebsiteList) = "http://a"
    ∧ claimWebsite exWebsiteList = ""
    ∧ extractWebsite (WebsiteField.links exWebsiteList) ≠ claimWebsite exWebsiteList
    ∧ (get_organization_details "7"
        (OrgResp.ok (some ⟨"N", "", "intro", "2001", WebsiteField.links exWebsiteList⟩))).map
          (fun i => i.website) = some "http://a" := by
  refine ⟨by decide, by decide, by decide, by decide⟩

theorem priorityScan_eq_findSome (l : List WebsiteEntry) :
    ∀ ts : List String,
      priorityScan l ts =
        (ts.findSome? (fun t => (firstTitleMatch t l).bind
          (fun s => if s.link = "" then none else some s.link))).getD "" := by
  intro ts
  induction ts with
  | nil => rfl
  | cons t ts ih =>
    rw [priorityScan, List.findSome?_cons]
    cases h : firstTitleMatch t l with
    | none => simpa [h] using ih
    | some s =>
      by_cases hs : s.link = ""
      · simp only [h, hs, Option.some_bind, if_pos rfl, ite_true, ne_eq,
          not_true_eq_false, ite_false]
        simpa [hs] using ih
      · simp [h, hs]

/-- Claim C8 amended: on a list-shaped website field the code scans the priority titles
`homepage`, `官网`, `官方网站`, `official website` in order, assigning the link of the
first site whose title matches case-insensitively, but a matched site whose link is the
empty string is skipped and the scan moves on to later priority titles; the
first-listed-link fallback applies whenever this scan produced nothing non-empty (not
only when no title matched); an absent or string-shaped field yields an empty
website. -/
theorem c8_amended :
    (∀ l : List WebsiteEntry,
        extractWebsite (WebsiteField.links l) = amendedWebsite l)
    ∧ extractWebsite WebsiteField.absent = ""
    ∧ (∀ s, extractWebsite (WebsiteField.str s) = "")
    ∧ (∀ (org_id : String) (d : OrgData),
        (get_organization_details org_id (OrgResp.ok (some d))).map (fun i => i.website) =
          some (extractWebsite d.website)) := by
  refine ⟨?_, rfl, fun s => rfl, fun org_id d => rfl⟩
  intro l
  have hl : extractWebsite (WebsiteField.links l) =
      (if priorityScan l websitePriority = ""
       then firstLink l
       else priorityScan l websitePriority) := rfl
  have ha : amendedWebsite l =
      (match websitePriority.findSome? (fun t => (firstTitleMatch t l).bind
          (fun s => if s.link = "" then none else some s.link)) with
       | some link => link
       | none => firstLink l) := rfl
  rw [hl, ha, priorityScan_eq_findSome]
  cases hf : websitePriority.findSome? (fun t => (firstTitleMatch t l).bind
      (fun s => if s.link = "" then none else some s.link)) with
  | none => simp
  | some link =>
    obtain ⟨t, ht, hft⟩ := List.exists_of_findSome?_eq_some hf
    have hne : link ≠ "" := by
      cases hmatch : firstTitleMatch t l with
      | none => rw [hmatch] at hft; cases hft
      | some site =>
        rw [hmatch] at hft
        by_cases hs : site.link = ""
        · simp [hs] at hft
        · simp only [Option.some_bind, if_neg hs] at hft
          injection hft with hft
          subst hft
          exact hs
    simp [hne]

/-- Witness for C8 (amended): a list whose `官网`-titled first match carries an empty
link falls through to the `official website` title. -/
theorem c8_amended_witness :
    extractWebsite (WebsiteField.links
        [⟨"官网", ""⟩, ⟨"Official Website", "http://b"⟩]) =
      amendedWebsite [⟨"官网", ""⟩, ⟨"Official Website", "http://b"⟩] :=
  c8_amended.1 [⟨"官网", ""⟩, ⟨"Official Website", "http://b"⟩]

theorem processRow_matched_inv (search : String → List Candidate)
    (orgLookup : String → Option OrgInfo) (processed : List String)
    (st : RunState) (idx : Nat) (r : SourceRow)
    (h : ∀ m ∈ st.matched, processed.contains m.bgm_id = false) :
    ∀ m ∈ (processRow search orgLookup processed st idx r).matched,
      processed.contains m.bgm_id = false := by
  intro m hm
  rw [processRow] at hm
  by_cases hc : processed.contains (bgmIdOf idx r) = true
  · rw [if_pos hc] at hm
    exact h m hm
  · rw [if_neg hc] at hm
    by_cases hemp : r.jp_name = "" ∧ r.cn_name = ""
    · rw [if_pos hemp] at hm
      exact h m hm
    · rw [if_neg hemp] at hm
      simp only [] at hm
      split at hm
      · simp only [List.mem_append, List.mem_singleton] at hm
        rcases hm with hm | hm
        · exact h m hm
        · subst hm
          simpa using hc
      · exact h m hm

theorem runFrom_matched_inv (search : String → List Candidate)
    (orgLookup : String → Option OrgInfo) (processed : List String) :
    ∀ (rows : List SourceRow) (idx : Nat) (st : RunState),
      (∀ m ∈ st.matched, processed.contains m.bgm_id = false) →
      ∀ m ∈ (runFrom search orgLookup processed idx st rows).matched,
        processed.contains m.bgm_id = false := by
  intro rows
  induction rows with
  | nil =>
    intro idx st h m hm
    rw [runFrom] at hm
    exact h m hm
  | cons r rs ih =>
    intro idx st h m hm
    rw [runFrom] at hm
    exact ih (idx + 1) (processRow search orgLookup processed st idx r)
      (processRow_matched_inv search orgLookup processed st idx r h) m hm

/-- Claim C1 counterexample: with the matched store empty at start, a source table
whose two rows both carry id `"1"` produces two `MatchedRecord` rows for the same
source id within a single run — the processed-id set is loaded once at start and not
extended during the run — so "no sourceId ever has two MatchedRecords within or across
runs" is false as stated. -/
theorem c1_counterexample :
    ¬ noDuplicateSourceIds (runMatch rowsC1 [] searchC1 (fun _ => none) [])
    ∧ ((runMatch rowsC1 [] searchC1 (fun _ => none) []).matched.map
        (fun m => m.bgm_id)) = ["1", "1"] := by
  constructor
  · rw [noDuplicateSourceIds]
    decide
  · decide

/-- Claim C1 amended: for every source record whose sourceId is already present in the
matched-results store when a run starts, the run appends no new `MatchedRecord` for
that sourceId (the record is skipped), so a pre-existing sourceId never gains a second
`MatchedRecord` across runs; a sourceId that first appears during the run, however, can
produce one `MatchedRecord` per source row carrying it within that run. -/
theorem c1_amended :
    ∀ (rows : List SourceRow) (processed : List String)
      (search : String → List Candidate) (orgLookup : String → Option OrgInfo)
      (initCache : OrgCache) (m : MatchedRow),
      m ∈ (runMatch rows processed search orgLookup initCache).matched →
      processed.contains m.bgm_id = false := by
  intro rows processed search orgLookup initCache m hm
  exact runFrom_matched_inv search orgLookup processed rows 0 ⟨[], [], initCache, []⟩
    (by intro m2 hm2; cases hm2) m hm

/-- Witness for C1 (amended): in a run starting with `"zzz"` as the only processed id,
the produced matched row's id is not in the processed set. -/
theorem c1_amended_witness :
    (["zzz"] : List String).contains rowOutC1.bgm_id = false :=
  c1_amended [⟨some "1", "a", ""⟩] ["zzz"] searchC1 (fun _ => none) [] rowOutC1 (by decide)

theorem charToNat_ofNat (m : Nat) (h : m.isValidChar) : (Char.ofNat m).toNat = m := by
  rw [Char.ofNat, dif_pos h]
  rfl

theorem charToLower_idem (c : Char) : c.toLower.toLower = c.toLower := by
  rw [Char.toLower, Char.toLower]
  by_cases h : c.toNat ≥ 65 ∧ c.toNat ≤ 90
  · rw [if_pos h]
    have hv : (c.toNat + 32).isValidChar := Or.inl (by omega)
    have hval : (Char.ofNat (c.toNat + 32)).toNat = c.toNat + 32 := charToNat_ofNat _ hv
    rw [if_neg]
    intro hcon
    rw [hval] at hcon
    omega
  · rw [if_neg h, if_neg h]

theorem lowerList_idem (l : List Char) :
    (l.map Char.toLower).map Char.toLower = l.map Char.toLower := by
  induction l with
  | nil => rfl
  | cons c cs ih => simp [charToLower_idem, ih]

theorem jget_bound (alo blo B : Nat) (m : JMap) (h : JBoundLe alo blo B m) (j0 : Nat) :
    jget m j0 = 0
    ∨ (blo ≤ j0 ∧ 1 ≤ jget m j0 ∧ jget m j0 + blo ≤ j0 + 1 ∧ jget m j0 + alo ≤ B) := by
  rw [jget]
  cases hf : m.find? (fun p => p.1 = j0) with
  | none => left; rfl
  | some p =>
    have hmem : p ∈ m := List.mem_of_find?_eq_some hf
    have hp := h p hmem
    have h2 := List.find?_some hf
    simp only [decide_eq_true_eq] at h2
    have hpj : p.1 = j0 := h2
    right
    have hval : (Option.map (fun q => q.2) (some p)).getD 0 = p.2 := rfl
    rw [hval, ← hpj]
    exact hp

theorem flmInner_bound (alo ahi blo bhi i : Nat) (hi1 : alo ≤ i) (hi2 : i < ahi) :
    ∀ (js : List Nat) (j2len newmap : JMap) (best : Nat × Nat × Nat),
      JBoundLe alo blo i j2len →
      JBoundLe alo blo (i + 1) newmap →
      BBound alo ahi blo bhi best →
      JBoundLe alo blo (i + 1) (flmInner j2len blo bhi i js newmap best).1
      ∧ BBound alo ahi blo bhi (flmInner j2len blo bhi i js newmap best).2 := by
  intro js
  induction js with
  | nil => intro j2len newmap best h1 h2 h3; exact ⟨h2, h3⟩
  | cons j js ih =>
    intro j2len newmap best h1 h2 h3
    rw [flmInner]
    by_cases hjlo : j < blo
    · rw [if_pos hjlo]
      exact ih j2len newmap best h1 h2 h3
    · rw [if_neg hjlo]
      by_cases hjhi : bhi ≤ j
      · rw [if_pos hjhi]
        exact ⟨h2, h3⟩
      · rw [if_neg hjhi]
        have hkb : 1 ≤ (if j = 0 then 0 else jget j2len (j - 1)) + 1
            ∧ (if j = 0 then 0 else jget j2len (j - 1)) + 1 + blo ≤ j + 1
            ∧ (if j = 0 then 0 else jget j2len (j - 1)) + 1 + alo ≤ i + 1 := by
          by_cases hj0 : j = 0
          · rw [if_pos hj0]
            refine ⟨by omega, by omega, by omega⟩
          · rw [if_neg hj0]
            rcases jget_bound alo blo i j2len h1 (j - 1) with h0 | ⟨hb1, hb2, hb3, hb4⟩
            · rw [h0]
              refine ⟨by omega, by omega, by omega⟩
            · refine ⟨by omega, by omega, by omega⟩
        obtain ⟨hk1, hk2, hk3⟩ := hkb
        apply ih j2len
        · exact h1
        · intro p hp
          rcases List.mem_cons.mp hp with rfl | hp
          · refine ⟨by omega, by omega, by omega, by omega⟩
          · exact h2 p hp
        · by_cases hlt : best.2.2 < (if j = 0 then 0 else jget j2len (j - 1)) + 1
          · rw [if_pos hlt]
            refine ⟨?_, ?_, ?_, ?_⟩ <;> · dsimp only; omega
          · rw [if_neg hlt]
            exact h3

theorem flmFold_bound (a b : List Char) (alo ahi blo bhi : Nat) :
    ∀ (n s : Nat) (st : JMap × (Nat × Nat × Nat)),
      alo ≤ s → s + n ≤ ahi →
      JBoundLe alo blo s st.1 → BBound alo ahi blo bhi st.2 →
      BBound alo ahi blo bhi
        (((List.range' s n).foldl
          (fun (st : JMap × (Nat × Nat × Nat)) i =>
            flmInner st.1 blo bhi i (b2j b (a.getD i ' ')) [] st.2) st).2) := by
  intro n
  induction n with
  | zero =>
    intro s st _ _ _ h4
    simpa using h4
  | succ m ih =>
    intro s st hs hsn h3 h4
    have hrange : List.range' s (m + 1) = s :: List.range' (s + 1) m := rfl
    rw [hrange, List.foldl_cons]
    have hstep := flmInner_bound alo ahi blo bhi s hs (by omega)
      (b2j b (a.getD s ' ')) st.1 [] st.2 h3
      (by intro p hp; cases hp) h4
    exact ih (s + 1) _ (by omega) (by omega) hstep.1 hstep.2

theorem flmMain_bound (a b : List Char) (alo ahi blo bhi : Nat)
    (h1 : alo ≤ ahi) (h2 : blo ≤ bhi) :
    BBound alo ahi blo bhi (flmMain a b alo ahi blo bhi) := by
  rw [flmMain]
  apply flmFold_bound a b alo ahi blo bhi (ahi - alo) alo ([], (alo, blo, 0))
    (Nat.le_refl alo) (by omega)
  · intro p hp
    cases hp
  · exact ⟨Nat.le_refl alo, Nat.le_refl blo, by dsimp only; omega, by dsimp only; omega⟩

theorem extLo_bound (a b : List Char) (alo blo ahi bhi : Nat) :
    ∀ (fuel besti bestj k : Nat),
      alo ≤ besti → blo ≤ bestj → besti + k ≤ ahi → bestj + k ≤ bhi →
      BBound alo ahi blo bhi (extLo a b alo blo fuel besti bestj k) := by
  intro fuel
  induction fuel with
  | zero =>
    intro besti bestj k h1 h2 h3 h4
    exact ⟨h1, h2, h3, h4⟩
  | succ n ih =>
    intro besti bestj k h1 h2 h3 h4
    rw [extLo]
    split
    · next hcond =>
      obtain ⟨hc1, hc2, -⟩ := hcond
      exact ih (besti - 1) (bestj - 1) (k + 1) (by omega) (by omega) (by omega) (by omega)
    · exact ⟨h1, h2, h3, h4⟩

theorem extHi_bound (a b : List Char) (ahi bhi : Nat) :
    ∀ (fuel besti bestj k : Nat),
      besti + k ≤ ahi → bestj + k ≤ bhi →
      besti + extHi a b ahi bhi fuel besti bestj k ≤ ahi
      ∧ bestj + extHi a b ahi bhi fuel besti bestj k ≤ bhi := by
  intro fuel
  induction fuel with
  | zero =>
    intro besti bestj k h1 h2
    exact ⟨h1, h2⟩
  | succ n ih =>
    intro besti bestj k h1 h2
    rw [extHi]
    split
    · next hcond =>
      obtain ⟨hc1, hc2, -⟩ := hcond
      exact ih besti bestj (k + 1) (by omega) (by omega)
    · exact ⟨h1, h2⟩

theorem find_longest_match_bound (a b : List Char) (alo ahi blo bhi : Nat)
    (h1 : alo ≤ ahi) (h2 : blo ≤ bhi) :
    BBound alo ahi blo bhi (find_longest_match a b alo ahi blo bhi) := by
  obtain ⟨hm1, hm2, hm3, hm4⟩ := flmMain_bound a b alo ahi blo bhi h1 h2
  obtain ⟨hl1, hl2, hl3, hl4⟩ := extLo_bound a b alo blo ahi bhi
    (flmMain a b alo ahi blo bhi).1 (flmMain a b alo ahi blo bhi).1
    (flmMain a b alo ahi blo bhi).2.1 (flmMain a b alo ahi blo bhi).2.2 hm1 hm2 hm3 hm4
  obtain ⟨hh1, hh2⟩ := extHi_bound a b ahi bhi
    (ahi - ((extLo a b alo blo (flmMain a b alo ahi blo bhi).1
        (flmMain a b alo ahi blo bhi).1 (flmMain a b alo ahi blo bhi).2.1
        (flmMain a b alo ahi blo bhi).2.2).1
      + (extLo a b alo blo (flmMain a b alo ahi blo bhi).1
        (flmMain a b alo ahi blo bhi).1 (flmMain a b alo ahi blo bhi).2.1
        (flmMain a b alo ahi blo bhi).2.2).2.2))
    (extLo a b alo blo (flmMain a b alo ahi blo bhi).1 (flmMain a b alo ahi blo bhi).1
      (flmMain a b alo ahi blo bhi).2.1 (flmMain a b alo ahi blo bhi).2.2).1
    (extLo a b alo blo (flmMain a b alo ahi blo bhi).1 (flmMain a b alo ahi blo bhi).1
      (flmMain a b alo ahi blo bhi).2.1 (flmMain a b alo ahi blo bhi).2.2).2.1
    (extLo a b alo blo (flmMain a b alo ahi blo bhi).1 (flmMain a b alo ahi blo bhi).1
      (flmMain a b alo ahi blo bhi).2.1 (flmMain a b alo ahi blo bhi).2.2).2.2
    hl3 hl4
  exact ⟨hl1, hl2, hh1, hh2⟩

theorem matchingSum_le (a b : List Char) :
    ∀ (fuel alo ahi blo bhi : Nat), alo ≤ ahi → blo ≤ bhi →
      matchingSum a b fuel alo ahi blo bhi ≤ ahi - alo
      ∧ matchingSum a b fuel alo ahi blo bhi ≤ bhi - blo := by
  intro fuel
  induction fuel with
  | zero =>
    intro alo ahi blo bhi _ _
    rw [matchingSum]
    omega
  | succ n ih =>
    intro alo ahi blo bhi h1 h2
    obtain ⟨hb1, hb2, hb3, hb4⟩ := find_longest_match_bound a b alo ahi blo bhi h1 h2
    rw [matchingSum]
    by_cases hk : (find_longest_match a b alo ahi blo bhi).2.2 = 0
    · rw [if_pos hk]
      omega
    · rw [if_neg hk]
      have hsub1 := ih alo (find_longest_match a b alo ahi blo bhi).1 blo
        (find_longest_match a b alo ahi blo bhi).2.1
      have hsub2 := ih ((find_longest_match a b alo ahi blo bhi).1
          + (find_longest_match a b alo ahi blo bhi).2.2) ahi
        ((find_longest_match a b alo ahi blo bhi).2.1
          + (find_longest_match a b alo ahi blo bhi).2.2) bhi hb3 hb4
      by_cases hg1 : alo < (find_longest_match a b alo ahi blo bhi).1
          ∧ blo < (find_longest_match a b alo ahi blo bhi).2.1
      · have hs1 := hsub1 (by omega) (by omega)
        rw [if_pos hg1]
        by_cases hg2 : (find_longest_match a b alo ahi blo bhi).1
              + (find_longest_match a b alo ahi blo bhi).2.2 < ahi
            ∧ (find_longest_match a b alo ahi blo bhi).2.1
              + (find_longest_match a b alo ahi blo bhi).2.2 < bhi
        · rw [if_pos hg2]
          omega
        · rw [if_neg hg2]
          omega
      · rw [if_neg hg1]
        by_cases hg2 : (find_longest_match a b alo ahi blo bhi).1
              + (find_longest_match a b alo ahi blo bhi).2.2 < ahi
            ∧ (find_longest_match a b alo ahi blo bhi).2.1
              + (find_longest_match a b alo ahi blo bhi).2.2 < bhi
        · rw [if_pos hg2]
          omega
        · rw [if_neg hg2]
          omega

theorem ratioOf_nonneg_le_one (a b : List Char) : 0 ≤ ratioOf a b ∧ ratioOf a b ≤ 1 := by
  rw [ratioOf]
  by_cases h0 : a.length + b.length = 0
  · rw [if_pos h0]
    norm_num
  · rw [if_neg h0]
    obtain ⟨hm1, hm2⟩ := matchingSum_le a b (a.length + b.length + 1) 0 a.length 0 b.length
      (Nat.zero_le _) (Nat.zero_le _)
    have hM : 2 * matchingSum a b (a.length + b.length + 1) 0 a.length 0 b.length
        ≤ a.length + b.length := by omega
    rw [Rat.mkRat_eq_div]
    have hpos : (0 : ℚ) < ((a.length + b.length : Nat) : ℚ) := by
      exact_mod_cast Nat.pos_of_ne_zero h0
    constructor
    · apply div_nonneg
      · exact_mod_cast Int.natCast_nonneg _
      · exact le_of_lt hpos
    · rw [div_le_one hpos]
      exact_mod_cast hM

theorem bestFold_snd (ymName : String) :
    ∀ (rows : List BgRow) (st : Option BgRow × ℚ),
      (rows.foldl
        (fun (st : Option BgRow × ℚ) bg =>
          if st.2 < calculate_similarity ymName bg.game_name then
            (some bg, calculate_similarity ymName bg.game_name)
          else st) st).2
      = rows.foldl (fun acc bg => max acc (calculate_similarity ymName bg.game_name)) st.2 := by
  intro rows
  induction rows with
  | nil => intro st; rfl
  | cons bg rows ih =>
    intro st
    have hstep : ((if st.2 < calculate_similarity ymName bg.game_name then
          ((some bg : Option BgRow), calculate_similarity ymName bg.game_name)
        else st)).2 = max st.2 (calculate_similarity ymName bg.game_name) := by
      by_cases h : st.2 < calculate_similarity ymName bg.game_name
      · rw [if_pos h]
        exact (max_eq_right (le_of_lt h)).symm
      · rw [if_neg h]
        exact (max_eq_left (not_lt.mp h)).symm
    rw [List.foldl_cons, List.foldl_cons, ih, hstep]

theorem bestFold_none (ymName : String) :
    ∀ (rows : List BgRow) (st : Option BgRow × ℚ),
      (rows.foldl
        (fun (st : Option BgRow × ℚ) bg =>
          if st.2 < calculate_similarity ymName bg.game_name then
            (some bg, calculate_similarity ymName bg.game_name)
          else st) st).1 = none →
      (rows.foldl
        (fun (st : Option BgRow × ℚ) bg =>
          if st.2 < calculate_similarity ymName bg.game_name then
            (some bg, calculate_similarity ymName bg.game_name)
          else st) st).2 = st.2 ∧ st.1 = none := by
  intro rows
  induction rows with
  | nil =>
    intro st h
    exact ⟨rfl, h⟩
  | cons bg rows ih =>
    intro st h
    rw [List.foldl_cons] at h ⊢
    by_cases hlt : st.2 < calculate_similarity ymName bg.game_name
    · rw [if_pos hlt] at h
      obtain ⟨-, habs⟩ := ih _ h
      cases habs
    · rw [if_neg hlt] at h ⊢
      exact ⟨(ih st h).1, (ih st h).2⟩

theorem alignRow_fst_none (ym : YmRow) (bgRows : List BgRow)
    (h : (bestBangumi ym.name bgRows).1 = none) : alignRow ym bgRows = none := by
  rw [alignRow.eq_def, h]

theorem alignRow_fst_some_ge (ym : YmRow) (bgRows : List BgRow) (bg : BgRow)
    (h : (bestBangumi ym.name bgRows).1 = some bg)
    (hge : mkRat 4 5 ≤ (bestBangumi ym.name bgRows).2) :
    alignRow ym bgRows =
      some { ym_id := ym.ym_id
             ym_name := ym.name
             ym_chinese_name := ym.chineseName
             bangumi_id := bg.game_id
             bangumi_name := bg.game_name
             bangumi_score := bg.rating
             bangumi_rank := bg.rank
             bangumi_votes := bg.votes
             bangumi_summary := bg.summary
             match_score := round4 (bestBangumi ym.name bgRows).2 } := by
  rw [alignRow.eq_def, h]
  simp only [if_pos hge]

theorem alignRow_fst_some_lt (ym : YmRow) (bgRows : List BgRow) (bg : BgRow)
    (h : (bestBangumi ym.name bgRows).1 = some bg)
    (hlt : ¬ mkRat 4 5 ≤ (bestBangumi ym.name bgRows).2) :
    alignRow ym bgRows = none := by
  rw [alignRow.eq_def, h]
  simp only [if_neg hlt]

/-- Claim C9: for every matched record the Secondary Aligner computes a
case-insensitive whole-string similarity in `[0, 1]` against every name of the third
table (the similarity of the lowercased strings, so letter case never affects it),
keeps the maximum over all those names, and emits a joined output row exactly when that
maximum is at least `0.8`. -/
theorem c9_secondary_aligner :
    (∀ s t : String, 0 ≤ calculate_similarity s t ∧ calculate_similarity s t ≤ 1)
    ∧ (∀ s t : String,
        calculate_similarity s t = calculate_similarity (lowerStr s) (lowerStr t))
    ∧ (∀ (ym : YmRow) (bgRows : List BgRow),
        (alignRow ym bgRows).isSome = true ↔
          (bgRows ≠ [] ∧ mkRat 4 5 ≤ maxSimilarity ym.name bgRows)) := by
  refine ⟨?_, ?_, ?_⟩
  · intro s t
    exact ratioOf_nonneg_le_one _ _
  · intro s t
    show ratioOf (s.data.map Char.toLower) (t.data.map Char.toLower)
        = ratioOf ((lowerStr s).data.map Char.toLower) ((lowerStr t).data.map Char.toLower)
    have h1 : (lowerStr s).data = s.data.map Char.toLower := rfl
    have h2 : (lowerStr t).data = t.data.map Char.toLower := rfl
    rw [h1, h2, lowerList_idem, lowerList_idem]
  · intro ym bgRows
    have hsnd : (bestBangumi ym.name bgRows).2 = maxSimilarity ym.name bgRows :=
      bestFold_snd ym.name bgRows (none, 0)
    constructor
    · intro h
      cases hbm : (bestBangumi ym.name bgRows).1 with
      | none =>
        rw [alignRow_fst_none ym bgRows hbm] at h
        cases h
      | some bg =>
        by_cases hge : mkRat 4 5 ≤ (bestBangumi ym.name bgRows).2
        · refine ⟨?_, ?_⟩
          · intro hnil
            subst hnil
            cases hbm
          · rw [← hsnd]
            exact hge
        · rw [alignRow_fst_some_lt ym bgRows bg hbm hge] at h
          cases h
    · rintro ⟨hne, hmax⟩
      cases hbm : (bestBangumi ym.name bgRows).1 with
      | none =>
        have h0 : (bestBangumi ym.name bgRows).2 = (0 : ℚ) :=
          (bestFold_none ym.name bgRows (none, 0) hbm).1
        rw [← hsnd, h0] at hmax
        exact absurd hmax (by decide)
      | some bg =>
        rw [alignRow_fst_some_ge ym bgRows bg hbm (by rw [hsnd]; exact hmax)]
        rfl

/-- Witness for C9: the matched name `Clannad` aligned against the single-entry table
`Clannad` (similarity 1, case-insensitively) emits a joined row. -/
theorem c9_secondary_aligner_witness :
    (alignRow ⟨"Clannad", "", "y1"⟩ [⟨"CLANNAD", "b1", "", "", "", ""⟩]).isSome = true :=
  (c9_secondary_aligner.2.2 ⟨"Clannad", "", "y1"⟩ [⟨"CLANNAD", "b1", "", "", "", ""⟩]).mpr
    ⟨by decide, by decide⟩
